import Mathlib

/-!
Verification of the chainlink event-subscription and job-dispatch core
(package services): subscription lifecycle, RunLog validation, ABI payload
decoding, and dispatch. Go byte strings are modelled as lists of natural
numbers (one per byte); fallible Go code returns Except or Option; Go runtime
panics (out-of-range indexing and slicing) are modelled by an explicit
Panic error layer.
-/

namespace Chainlink

/-- A Go runtime panic reachable in the services code: indexing a topic that
is out of range, or slicing the data blob past its length. -/
inductive Panic where
  | topicIndex (i : Nat)
  | dataSlice
deriving DecidableEq

/-- A 32-byte Ethereum hash (go-ethereum common.Hash), as its list of bytes. -/
structure Hash where
  bytes : List Nat
deriving DecidableEq

/-- Descriptive indices of the Topic array of a RunLog (source constants
EventTopicSignature, EventTopicRequestID, EventTopicJobID). -/
def EventTopicSignature : Nat := 0

/-- Index of the request id topic. -/
def EventTopicRequestID : Nat := 1

/-- Index of the job id topic. -/
def EventTopicJobID : Nat := 2

/-- RunLogTopic is the signature for the Request(uint256,bytes32,string)
event which Chainlink RunLog initiators watch for; byte list of the constant
hash 0x06f4bf36b4e011a5c499cef1113c2d166800ce4013f6c2509cab1a0e92b83fb2. -/
def RunLogTopic : Hash :=
  ⟨[6, 244, 191, 54, 180, 224, 17, 165, 196, 153, 206, 241, 17, 60, 45, 22,
    104, 0, 206, 64, 19, 246, 194, 80, 156, 171, 26, 14, 146, 184, 63, 178]⟩

/-- The lowercase hex digit for a value below 16, as an ASCII byte
(go-ethereum hex encoding emits lowercase digits). -/
def hexDigitByte (n : Nat) : Nat :=
  if n < 10 then 48 + n else 87 + n

/-- The two lowercase hex digits of one byte. -/
def byteToHex (b : Nat) : List Nat :=
  [hexDigitByte (b / 16), hexDigitByte (b % 16)]

/-- Hash.Hex of go-ethereum: the 0x-prefixed lowercase hex string of the
bytes of the hash, as ASCII bytes (48 is the 0 digit, 120 is the letter x).
Hash.String() on a go-ethereum hash returns the same string. -/
def Hash.hex (h : Hash) : List Nat :=
  48 :: 120 :: (h.bytes.flatMap byteToHex)

/-- The value of one ASCII hex digit byte, accepting both letter cases
(encoding/hex of Go accepts 0-9, a-f and A-F). -/
def hexVal (c : Nat) : Option Nat :=
  if 48 ≤ c ∧ c ≤ 57 then some (c - 48)
  else if 97 ≤ c ∧ c ≤ 102 then some (c - 87)
  else if 65 ≤ c ∧ c ≤ 70 then some (c - 55)
  else none

/-- Decode pairs of hex digit bytes into bytes; fails on an odd count or an
invalid digit, as encoding/hex of Go does. -/
def hexPairs : List Nat → Option (List Nat)
  | [] => some []
  | [_] => none
  | a :: b :: rest =>
    match hexVal a, hexVal b, hexPairs rest with
    | some hi, some lo, some tail => some ((hi * 16 + lo) :: tail)
    | _, _, _ => none

/-- Modelled from the spec: utils.HexToString is not under src/. It converts
a 0x-prefixed hex string to the string of its decoded bytes, failing on a
missing prefix, an odd digit count, or an invalid digit (go-ethereum
hexutil.Decode, which also accepts a 0X prefix). -/
def hexToString (s : List Nat) : Option (List Nat) :=
  match s with
  | 48 :: p :: rest => if p = 120 ∨ p = 88 then hexPairs rest else none
  | _ => none

/-- A raw log record delivered by the chain log source (go-ethereum
types.Log restricted to the fields this core reads): emitting contract
address bytes, ordered topic hashes, and the opaque data blob. -/
structure Log where
  address : List Nat
  topics : List Hash
  data : List Nat
deriving DecidableEq

/-- The closed tag of an initiator type (models.Initiator Type field). -/
inductive InitiatorType where
  | web
  | cron
  | runAt
  | ethLog
  | runLog
deriving DecidableEq

/-- A job initiator: its type tag, watched address, and owning job id. -/
structure Initiator where
  type : InitiatorType
  address : List Nat
  jobID : List Nat
deriving DecidableEq

/-- A job: identifier (bytes of the Go id string) and its initiators. -/
structure Job where
  id : List Nat
  initiators : List Initiator
deriving DecidableEq

/-- The zero value of models.Job, produced by the Go JobSubscription zero
literal on the failure path. -/
def emptyJob : Job := ⟨[], []⟩

/-- Modelled from the spec: models.Job.InitiatorsFor is not under src/. It
returns the initiators of the job carrying the given type tag, in order. -/
def Job.initiatorsFor (j : Job) (t : InitiatorType) : List Initiator :=
  j.initiators.filter (fun i => i.type = t)

/-- All information of a received log event handed to a receive callback:
the raw log, the watching job and the initiator (RpcLogEvent; the store
field is threaded to the execution engine and is modelled as an oracle
argument of the dispatch functions). -/
structure RpcLogEvent where
  log : Log
  job : Job
  initiator : Initiator
deriving DecidableEq

/-- isRunLog: the log is a RunLog if it has exactly 3 topics and topic 0
equals the RunLogTopic constant; the Go conjunction is short-circuit, so
topic 0 is only read once the length check passed. -/
def isRunLog (log : Log) : Bool :=
  log.topics.length = 3 ∧ log.topics.get? 0 = some RunLogTopic

/-- jobIDFromLog: utils.HexToString(log.Topics[EventTopicJobID].Hex()); the
unguarded topic indexing panics when fewer than 3 topics are present. -/
def jobIDFromLog (log : Log) : Except Panic (Option (List Nat)) :=
  match log.topics.get? EventTopicJobID with
  | none => .error (.topicIndex EventTopicJobID)
  | some t => .ok (hexToString (Hash.hex t))

/-- ValidateRunLog: false unless the log is a RunLog (isRunLog) whose
decoded job id both decodes successfully and equals the id of the watching
job. -/
def ValidateRunLog (le : RpcLogEvent) : Except Panic Bool :=
  if !(isRunLog le.log) then .ok false
  else
    match jobIDFromLog le.log with
    | .error p => .error p
    | .ok none => .ok false
    | .ok (some jid) => .ok (jid = le.job.id)

/-- Modelled from the spec: models.JSON is not under src/. A JSON document
tree: null, booleans, numbers (restricted to integers in this model),
strings (as byte lists), arrays and objects (ordered field lists). -/
inductive JVal where
  | null
  | bool (b : Bool)
  | num (n : Int)
  | str (s : List Nat)
  | arr (elems : List JVal)
  | obj (fields : List (List Nat × JVal))

/-- The ASCII decimal digits of a natural number, most significant first. -/
def serNat (n : Nat) : List Nat :=
  if n = 0 then [48] else (Nat.digits 10 n).reverse.map (fun d => 48 + d)

/-- The ASCII decimal encoding of an integer (a leading minus sign byte 45
for negative values). -/
def serInt : Int → List Nat
  | Int.ofNat n => serNat n
  | Int.negSucc m => 45 :: serNat (m + 1)

/-- JSON string escaping of one byte: the quote and the backslash are
escaped, everything else passes through. -/
def escByte (b : Nat) : List Nat :=
  if b = 34 then [92, 34] else if b = 92 then [92, 92] else [b]

/-- A JSON string literal: quote, escaped content bytes, quote. -/
def serStrB (s : List Nat) : List Nat :=
  34 :: s.flatMap escByte ++ [34]

mutual

/-- Canonical JSON serialization of a document, without any whitespace. -/
def serVal : JVal → List Nat
  | .null => [110, 117, 108, 108]
  | .bool true => [116, 114, 117, 101]
  | .bool false => [102, 97, 108, 115, 101]
  | .num n => serInt n
  | .str s => serStrB s
  | .arr xs => 91 :: serElems xs ++ [93]
  | .obj fs => 123 :: serFields fs ++ [125]

/-- Comma-separated serialization of array elements. -/
def serElems : List JVal → List Nat
  | [] => []
  | [x] => serVal x
  | x :: y :: rest => serVal x ++ 44 :: serElems (y :: rest)

/-- Comma-separated serialization of object fields, each a quoted key, a
colon and a value. -/
def serFields : List (List Nat × JVal) → List Nat
  | [] => []
  | [(k, v)] => serStrB k ++ 58 :: serVal v
  | (k, v) :: f :: rest => serStrB k ++ 58 :: serVal v ++ 44 :: serFields (f :: rest)

end

/-- Whether a byte is JSON whitespace (space, tab, newline, return). -/
def isWs (c : Nat) : Bool :=
  c == 32 || c == 9 || c == 10 || c == 13

/-- Drop leading JSON whitespace. -/
def skipWs : List Nat → List Nat
  | [] => []
  | c :: rest => if isWs c then skipWs rest else c :: rest

/-- The byte denoted by a single-character JSON escape sequence; the unicode
escape form is not modelled. -/
def unescape (c : Nat) : Option Nat :=
  if c = 34 then some 34
  else if c = 92 then some 92
  else if c = 47 then some 47
  else if c = 98 then some 8
  else if c = 102 then some 12
  else if c = 110 then some 10
  else if c = 114 then some 13
  else if c = 116 then some 9
  else none

/-- Parse the body of a JSON string after the opening quote, returning the
unescaped content and the input after the closing quote. -/
def parseStrBody : List Nat → Option (List Nat × List Nat)
  | [] => none
  | c :: rest =>
    if c = 34 then some ([], rest)
    else if c = 92 then
      match rest with
      | [] => none
      | e :: rest2 =>
        match unescape e with
        | none => none
        | some b => (parseStrBody rest2).map (fun p => (b :: p.1, p.2))
    else (parseStrBody rest).map (fun p => (c :: p.1, p.2))

/-- Take the leading run of ASCII decimal digits, as digit values. -/
def takeDigits : List Nat → (List Nat × List Nat)
  | [] => ([], [])
  | c :: rest =>
    if 48 ≤ c ∧ c ≤ 57 then
      let p := takeDigits rest
      ((c - 48) :: p.1, p.2)
    else ([], c :: rest)

/-- The value of a most-significant-first digit list. -/
def digitsVal (ds : List Nat) : Nat :=
  ds.foldl (fun a d => 10 * a + d) 0

/-- Parse a nonempty run of digits into its value. -/
def parseNum (s : List Nat) : Option (Nat × List Nat) :=
  let p := takeDigits s
  if p.1.isEmpty then none else some (digitsVal p.1, p.2)

/-- Consume exactly the given expected bytes from the input. -/
def expectBytes : List Nat → List Nat → Option (List Nat)
  | [], s => some s
  | e :: es, c :: s => if c = e then expectBytes es s else none
  | _ :: _, [] => none

mutual

/-- Fueled recursive-descent parser for one JSON value; whitespace before
the value is skipped, and the unconsumed input is returned. -/
def parseVal : Nat → List Nat → Option (JVal × List Nat)
  | 0, _ => none
  | fuel + 1, s =>
    match skipWs s with
    | [] => none
    | c :: rest =>
      if c = 34 then (parseStrBody rest).map (fun p => (JVal.str p.1, p.2))
      else if c = 91 then
        match skipWs rest with
        | [] => none
        | d :: r2 =>
          if d = 93 then some (JVal.arr [], r2)
          else (parseElems fuel (d :: r2)).map (fun p => (JVal.arr p.1, p.2))
      else if c = 123 then
        match skipWs rest with
        | [] => none
        | d :: r2 =>
          if d = 125 then some (JVal.obj [], r2)
          else (parseFields fuel (d :: r2)).map (fun p => (JVal.obj p.1, p.2))
      else if c = 116 then (expectBytes [114, 117, 101] rest).map (fun r => (JVal.bool true, r))
      else if c = 102 then (expectBytes [97, 108, 115, 101] rest).map (fun r => (JVal.bool false, r))
      else if c = 110 then (expectBytes [117, 108, 108] rest).map (fun r => (JVal.null, r))
      else if c = 45 then (parseNum rest).map (fun p => (JVal.num (-(p.1 : Int)), p.2))
      else if 48 ≤ c ∧ c ≤ 57 then (parseNum (c :: rest)).map (fun p => (JVal.num (p.1 : Int), p.2))
      else none

/-- Parse one or more comma-separated array elements and the closing
bracket. -/
def parseElems : Nat → List Nat → Option (List JVal × List Nat)
  | 0, _ => none
  | fuel + 1, s =>
    match parseVal fuel s with
    | none => none
    | some (v, r) =>
      match skipWs r with
      | [] => none
      | d :: r2 =>
        if d = 44 then (parseElems fuel r2).map (fun p => (v :: p.1, p.2))
        else if d = 93 then some ([v], r2)
        else none

/-- Parse one or more comma-separated object fields and the closing
brace. -/
def parseFields : Nat → List Nat → Option (List (List Nat × JVal) × List Nat)
  | 0, _ => none
  | fuel + 1, s =>
    match skipWs s with
    | [] => none
    | c :: rest =>
      if c = 34 then
        match parseStrBody rest with
        | none => none
        | some (k, r) =>
          match skipWs r with
          | [] => none
          | d :: r2 =>
            if d = 58 then
              match parseVal fuel r2 with
              | none => none
              | some (v, r3) =>
                match skipWs r3 with
                | [] => none
                | e :: r4 =>
                  if e = 44 then (parseFields fuel r4).map (fun p => ((k, v) :: p.1, p.2))
                  else if e = 125 then some ([(k, v)], r4)
                  else none
            else none
      else none

end

/-- Modelled from the spec: json.Unmarshal into models.JSON is not under
src/; the decoder parses the byte blob as one JSON document, tolerating
surrounding whitespace and failing on trailing garbage, empty input, or
malformed syntax. The fuel bound exceeds the cost of any parse. -/
def jsonParse (bs : List Nat) : Option JVal :=
  match parseVal (2 * bs.length + 1) bs with
  | none => none
  | some (v, r) => if skipWs r = [] then some v else none

mutual

/-- Fuel needed by parseVal on the canonical serialization of a value. -/
def fuelV : JVal → Nat
  | .null | .bool _ | .num _ | .str _ => 1
  | .arr xs => 2 + fuelE xs
  | .obj fs => 2 + fuelF fs

def fuelE : List JVal → Nat
  | [] => 1
  | v :: vs => 1 + fuelV v + fuelE vs

def fuelF : List (List Nat × JVal) → Nat
  | [] => 1
  | f :: fs => 1 + fuelV f.2 + fuelF fs

end

/-- The bytes of the key address. -/
def addressKey : List Nat := [97, 100, 100, 114, 101, 115, 115]

/-- The bytes of the key dataPrefix. -/
def dataPrefixKey : List Nat := [100, 97, 116, 97, 80, 114, 101, 102, 105, 120]

/-- The bytes of the key functionSelector. -/
def functionSelectorKey : List Nat :=
  [102, 117, 110, 99, 116, 105, 111, 110, 83, 101, 108, 101, 99, 116, 111, 114]

/-- The bytes of the constant selector value 76005c26. -/
def functionSelectorValue : List Nat := [55, 54, 48, 48, 53, 99, 50, 54]

/-- Address.String of go-ethereum at this vintage: the 0x-prefixed lowercase
hex string of the 20 address bytes. -/
def addressHex (a : List Nat) : List Nat :=
  48 :: 120 :: a.flatMap byteToHex

/-- The keys of a JSON object document, in order (empty for any other
document). -/
def JVal.keys : JVal → List (List Nat)
  | .obj fs => fs.map Prod.fst
  | _ => []

/-- The value at the first occurrence of a key of an object document. -/
def JVal.lookupKey : JVal → List Nat → Option JVal
  | .obj fs, k => (fs.find? (fun f => f.1 == k)).map Prod.snd
  | _, _ => none

/-- Modelled from the spec: models.JSON.Add is not under src/. It sets a
top-level key of a JSON object to a value, replacing an existing key and
appending a new one, and fails on any non-object document. -/
def JVal.add (j : JVal) (k : List Nat) (v : JVal) : Option JVal :=
  match j with
  | .obj fs =>
    if fs.any (fun f => f.1 == k) then
      some (.obj (fs.map (fun f => if f.1 == k then (k, v) else f)))
    else some (.obj (fs ++ [(k, v)]))
  | _ => none

/-- bytes.TrimRight with the zero byte: remove every trailing zero byte. -/
def trimTrailingZeros (bs : List Nat) : List Nat :=
  (bs.reverse.dropWhile (fun b => b == 0)).reverse

/-- A structured (non-panic) failure of the RunLog payload decoder: the
embedded blob is not valid JSON, or an augmentation step failed because the
document is not an object. -/
inductive DecodeErr where
  | invalidJSON
  | addFailed
deriving DecidableEq

/-- decodeABIToJSON: drop the 32-byte location word and the 32-byte length
word, trim the trailing zero padding, and parse the remainder as JSON. The
Go slice of data past index 64 panics when the blob holds fewer than 64
bytes. -/
def decodeABIToJSON (data : List Nat) : Except Panic (Except DecodeErr JVal) :=
  if data.length < 64 then .error .dataSlice
  else
    match jsonParse (trimTrailingZeros (data.drop 64)) with
    | none => .ok (.error .invalidJSON)
    | some js => .ok (.ok js)

/-- RunLogJSON: decode the ABI data blob, then augment the document with the
emitting address, the dataPrefix (the hex string of the request id topic)
and the constant functionSelector, in source order; the request id topic is
read without a bounds check. -/
def RunLogJSON (le : RpcLogEvent) : Except Panic (Except DecodeErr JVal) :=
  match decodeABIToJSON le.log.data with
  | .error p => .error p
  | .ok (.error e) => .ok (.error e)
  | .ok (.ok js) =>
    match js.add addressKey (.str (addressHex le.log.address)) with
    | none => .ok (.error .addFailed)
    | some js2 =>
      match le.log.topics.get? EventTopicRequestID with
      | none => .error (.topicIndex EventTopicRequestID)
      | some t =>
        match js2.add dataPrefixKey (.str (Hash.hex t)) with
        | none => .ok (.error .addFailed)
        | some js3 =>
          match js3.add functionSelectorKey (.str functionSelectorValue) with
          | none => .ok (.error .addFailed)
          | some js4 => .ok (.ok js4)

/-- Modelled from the spec: EthLogJSON reserializes the raw log record
through the json marshalling of the external library; every field of the
modelled record appears as a named field and the operation cannot fail. -/
def EthLogJSON (le : RpcLogEvent) : JVal :=
  .obj [(addressKey, .str (addressHex le.log.address)),
        ([116, 111, 112, 105, 99, 115], .arr (le.log.topics.map (fun t => .str (Hash.hex t)))),
        ([100, 97, 116, 97], .str (48 :: 120 :: le.log.data.flatMap byteToHex))]

/-- One observable action of a receive handler: handing one run input to the
execution engine, or logging that the engine rejected it. -/
inductive HandlerStep where
  | dispatch (job : Job) (input : JVal)
  | logDispatchError (job : Job)

/-- Whether a handler step is a dispatch to the execution engine. -/
def HandlerStep.isDispatch : HandlerStep → Bool
  | .dispatch _ _ => true
  | _ => false

/-- runJob: build one run input around the decoded data and hand it to the
execution engine exactly once (BeginRun is not under src/ and is modelled
as the beginRun oracle, true meaning the engine accepted the run); a
rejection is only logged. -/
def runJob (beginRun : Job → JVal → Bool) (le : RpcLogEvent) (data : JVal) :
    List HandlerStep :=
  if beginRun le.job data then [.dispatch le.job data]
  else [.dispatch le.job data, .logDispatchError le.job]

/-- ReceiveRunLog: validate, decode, and dispatch one raw event; an invalid
event and a decode failure both end the handler without a dispatch. -/
def ReceiveRunLog (beginRun : Job → JVal → Bool) (le : RpcLogEvent) :
    Except Panic (List HandlerStep) :=
  match ValidateRunLog le with
  | .error p => .error p
  | .ok false => .ok []
  | .ok true =>
    match RunLogJSON le with
    | .error p => .error p
    | .ok (.error _) => .ok []
    | .ok (.ok data) => .ok (runJob beginRun le data)

/-- ReceiveEthLog: reserialize the raw event and dispatch it; the decode
step of this path cannot fail. -/
def ReceiveEthLog (beginRun : Job → JVal → Bool) (le : RpcLogEvent) :
    List HandlerStep :=
  runJob beginRun le (EthLogJSON le)

/-- The event listener loop of one subscription: every received event is
handed to the receive callback independently, in arrival order. -/
def listenToLogs (recv : RpcLogEvent → Except Panic (List HandlerStep))
    (events : List RpcLogEvent) : List (Except Panic (List HandlerStep)) :=
  events.map recv

/-- The tag of the receive callback selected at open time. -/
inductive Callback where
  | runLogCb
  | ethLogCb
deriving DecidableEq

/-- An upstream go-ethereum rpc.ClientSubscription as observed by the
teardown code: whether its Err channel is non-nil. The library allocates
the channel when the subscription is created, so it is non-nil for every
subscription actually returned by the chain source. -/
structure RpcSub where
  errChanNonNil : Bool
deriving DecidableEq

/-- A log subscription handle: the watched job, the initiator, the receive
callback tag, and the upstream rpc subscription when the open succeeded. -/
structure RpcLogSubscription where
  job : Job
  initiator : Initiator
  callback : Callback
  rpcSubscription : Option RpcSub
deriving DecidableEq

/-- NewRpcLogSubscription: build the subscription record and request the
filtered log stream from the chain source (store.TxManager.SubscribeToLogs
is not under src/ and is modelled as the subscribe oracle); the error of a
failed request is returned alongside the partially built record. -/
def NewRpcLogSubscription (subscribe : Initiator → Except Nat RpcSub)
    (initr : Initiator) (job : Job) (cb : Callback) :
    RpcLogSubscription × Option Nat :=
  match subscribe initr with
  | .error e => (⟨job, initr, cb, none⟩, some e)
  | .ok rpc => (⟨job, initr, cb, some rpc⟩, none)

/-- StartRunLogSubscription: an rpc log subscription using the RunLog
receive callback. -/
def StartRunLogSubscription (subscribe : Initiator → Except Nat RpcSub)
    (initr : Initiator) (job : Job) : RpcLogSubscription × Option Nat :=
  NewRpcLogSubscription subscribe initr job .runLogCb

/-- StartEthLogSubscription: an rpc log subscription using the EthLog
receive callback. -/
def StartEthLogSubscription (subscribe : Initiator → Except Nat RpcSub)
    (initr : Initiator) (job : Job) : RpcLogSubscription × Option Nat :=
  NewRpcLogSubscription subscribe initr job .ethLogCb

/-- One teardown action of RpcLogSubscription.Unsubscribe. -/
inductive TeardownStep where
  | unsubscribeUpstream
  | closeLogChannel
  | closeErrorChannel
deriving DecidableEq

/-- RpcLogSubscription.Unsubscribe: unsubscribe from the source when the rpc
subscription is present and its Err channel is non-nil, then close the log
notification channel, then close the error channel. -/
def RpcLogSubscription.unsubscribeSteps (sub : RpcLogSubscription) :
    List TeardownStep :=
  (match sub.rpcSubscription with
   | some rpc => if rpc.errChanNonNil then [.unsubscribeUpstream] else []
   | none => []) ++ [.closeLogChannel, .closeErrorChannel]

/-- A job subscription handle: the job and the retained child log
subscriptions. -/
structure JobSubscription where
  job : Job
  unsubscribers : List RpcLogSubscription
deriving DecidableEq

/-- One entry of the combined multierr value of StartJobSubscription: a
setup failure of one initiator, or the final no-valid-log-initiator
error. -/
inductive JobSubErr where
  | setup (e : Nat)
  | noLogInitiator
deriving DecidableEq

/-- The per-initiator open loop of StartJobSubscription: attempt a log
subscription for each initiator in order, retain each success, and
accumulate each failure in order (multierr keeps non-nil errors in
order). -/
def collectSubs (subscribe : Initiator → Except Nat RpcSub) (job : Job)
    (cb : Callback) : List Initiator → List RpcLogSubscription × List Nat
  | [] => ([], [])
  | i :: rest =>
    let r := NewRpcLogSubscription subscribe i job cb
    let p := collectSubs subscribe job cb rest
    match r.2 with
    | none => (r.1 :: p.1, p.2)
    | some e => (p.1, e :: p.2)

/-- StartJobSubscription: open a subscription for every EthLog initiator and
then for every RunLog initiator; when nothing was retained, return the zero
handle and the accumulated errors extended with the no-valid-log-initiator
error, otherwise return the handle owning the retained subscriptions along
with the accumulated errors, even when they are nonempty. -/
def StartJobSubscription (subscribe : Initiator → Except Nat RpcSub)
    (job : Job) : JobSubscription × List JobSubErr :=
  let eth := collectSubs subscribe job .ethLogCb (job.initiatorsFor .ethLog)
  let rl := collectSubs subscribe job .runLogCb (job.initiatorsFor .runLog)
  let initSubs := eth.1 ++ rl.1
  let merr := (eth.2 ++ rl.2).map JobSubErr.setup
  if initSubs.isEmpty then (⟨emptyJob, []⟩, merr ++ [.noLogInitiator])
  else (⟨job, initSubs⟩, merr)

/-- JobSubscription.Unsubscribe: call Unsubscribe on every retained child in
order; a child close reports no failure back to the loop, so the outcome of
one close (the closeOutcome oracle) never stops the remaining closes. -/
def JobSubscription.unsubscribeAll (js : JobSubscription)
    (closeOutcome : RpcLogSubscription → Bool) :
    List (RpcLogSubscription × Bool) :=
  js.unsubscribers.map (fun s => (s, closeOutcome s))

/-- The input does not begin with an ASCII decimal digit, so a maximal
digit run ends exactly where it does. -/
def notDigitStart : List Nat → Prop
  | [] => True
  | c :: _ => ¬(48 ≤ c ∧ c ≤ 57)

/-- The possible first bytes of a canonical JSON serialization. -/
def goodStart (c : Nat) : Prop :=
  c = 34 ∨ c = 91 ∨ c = 123 ∨ c = 116 ∨ c = 102 ∨ c = 110 ∨ c = 45 ∨
    (48 ≤ c ∧ c ≤ 57)

/-- The parser recovers the value from its canonical serialization followed
by any non-digit-leading remainder, given enough fuel. -/
def ParsesSer (v : JVal) : Prop :=
  ∀ fuel rest, fuelV v ≤ fuel → notDigitStart rest →
    parseVal fuel (serVal v ++ rest) = some (v, rest)

/-- The subscriptions the open loop retains: one per initiator whose open
request succeeded, in initiator order. -/
def successesOf (subscribe : Initiator → Except Nat RpcSub) (job : Job)
    (cb : Callback) (initrs : List Initiator) : List RpcLogSubscription :=
  initrs.filterMap (fun i =>
    match subscribe i with
    | .ok rpc => some ⟨job, i, cb, some rpc⟩
    | .error _ => none)

/-- The errors the open loop accumulates: one per initiator whose open
request failed, in initiator order. -/
def failuresOf (subscribe : Initiator → Except Nat RpcSub)
    (initrs : List Initiator) : List Nat :=
  initrs.filterMap (fun i =>
    match subscribe i with
    | .ok _ => none
    | .error e => some e)

/-- The big-endian base-256 digits of a number, in exactly k bytes. -/
def natToBE : Nat → Nat → List Nat
  | 0, _ => []
  | k + 1, n => natToBE k (n / 256) ++ [n % 256]

/-- The fixed-offset ABI encoding of a JSON document as the single string
argument of a RunLog request event: a 32-byte head word holding the offset
32, a 32-byte length word, then the serialized bytes zero-padded to a
32-byte boundary. -/
def abiEncodeString (x : JVal) : List Nat :=
  natToBE 32 32 ++ natToBE 32 (serVal x).length ++ serVal x ++
    List.replicate ((32 - (serVal x).length % 32) % 32) 0

/-- A concrete RunLog initiator watching address bytes 170 for the job with
id byte 1, used by concrete evaluations. -/
def sampleInitiator : Initiator := ⟨.runLog, [170], [1]⟩

/-- A concrete job with one RunLog initiator and id byte 1. -/
def sampleJob : Job := ⟨[1], [sampleInitiator]⟩

/-- A concrete JSON document with one key value (bytes 118 97 108 117 101)
holding the string 100 (bytes 49 48 48). -/
def sampleDoc : JVal :=
  .obj [([118, 97, 108, 117, 101], .str [49, 48, 48])]

/-- A concrete data blob embedding sampleDoc: a 64-byte header, the
serialized document, and zero padding. -/
def sampleData : List Nat :=
  List.replicate 64 0 ++ serVal sampleDoc ++ List.replicate 17 0

/-- The document RunLogJSON produces for sampleEvent: sampleDoc augmented
with the emitting address, the dataPrefix and the functionSelector. -/
def sampleOut : JVal :=
  .obj [([118, 97, 108, 117, 101], .str [49, 48, 48]),
        (addressKey, .str [48, 120, 97, 97]),
        (dataPrefixKey, .str [48, 120, 48, 55]),
        (functionSelectorKey, .str functionSelectorValue)]

/-- A chain source oracle whose every subscription request succeeds with a
standard rpc subscription (allocated Err channel). -/
def okSource : Initiator → Except Nat RpcSub := fun _ => .ok ⟨true⟩

/-- A concrete retained RunLog subscription handle. -/
def sampleSubA : RpcLogSubscription :=
  ⟨sampleJob, sampleInitiator, .runLogCb, some ⟨true⟩⟩

/-- A concrete retained EthLog subscription handle for a second initiator. -/
def sampleSubB : RpcLogSubscription :=
  ⟨sampleJob, ⟨.ethLog, [171], [1]⟩, .ethLogCb, some ⟨true⟩⟩

/-- A concrete job subscription handle owning two distinct children. -/
def sampleHandle : JobSubscription :=
  ⟨sampleJob, [sampleSubA, sampleSubB]⟩

/-- A concrete valid RunLog event for sampleJob carrying sampleData. -/
def sampleEvent : RpcLogEvent :=
  ⟨⟨[170], [RunLogTopic, ⟨[7]⟩, ⟨[1]⟩], sampleData⟩, sampleJob, sampleInitiator⟩

/-- A concrete event that passes validation but whose data blob is empty, so
the decoder slices out of range. -/
def shortDataEvent : RpcLogEvent :=
  ⟨⟨[170], [RunLogTopic, ⟨[7]⟩, ⟨[1]⟩], []⟩, sampleJob, sampleInitiator⟩

/-- A concrete event that passes validation but whose data blob payload is
the single byte 120, which is not valid JSON. -/
def badJSONEvent : RpcLogEvent :=
  ⟨⟨[170], [RunLogTopic, ⟨[7]⟩, ⟨[1]⟩], List.replicate 64 0 ++ [120]⟩,
    sampleJob, sampleInitiator⟩

/-- A concrete event whose job id topic (byte 2) differs from the id of
sampleJob (byte 1), so validation rejects it. -/
def wrongJobEvent : RpcLogEvent :=
  ⟨⟨[170], [RunLogTopic, ⟨[7]⟩, ⟨[2]⟩], sampleData⟩, sampleJob, sampleInitiator⟩

theorem hexVal_hexDigitByte {n : Nat} (h : n < 16) :
    hexVal (hexDigitByte n) = some n := by
  unfold hexDigitByte
  rcases Nat.lt_or_ge n 10 with h10 | h10
  · rw [if_pos h10]
    unfold hexVal
    rw [if_pos (by omega)]
    congr 1
    omega
  · rw [if_neg (by omega)]
    unfold hexVal
    rw [if_neg (by omega), if_pos (by omega)]
    congr 1
    omega

theorem hexPairs_byteToHex {b : Nat} (hb : b < 256) {rest : List Nat}
    {tail : List Nat} (hrest : hexPairs rest = some tail) :
    hexPairs (byteToHex b ++ rest) = some (b :: tail) := by
  have h1 : b / 16 < 16 := by omega
  have h2 : b % 16 < 16 := by omega
  have hsum : b / 16 * 16 + b % 16 = b := by omega
  simp only [byteToHex, List.cons_append, List.nil_append, hexPairs,
    hexVal_hexDigitByte h1, hexVal_hexDigitByte h2, hrest, hsum]
  simp [hrest, hsum]

/-- Decoding the hex encoding of a hash recovers its bytes, provided each
byte is in range (go-ethereum hashes are byte arrays, so this always holds
on real chain data). -/
theorem hexToString_hex {h : Hash} (hwf : ∀ b ∈ h.bytes, b < 256) :
    hexToString (Hash.hex h) = some h.bytes := by
  have key : ∀ (l : List Nat), (∀ b ∈ l, b < 256) →
      hexPairs (l.flatMap byteToHex) = some l := by
    intro l
    induction l with
    | nil => intro _; rfl
    | cons x xs ih =>
      intro hl
      have hx : x < 256 := hl x (List.mem_cons_self x xs)
      have hxs := ih (fun b hb => hl b (List.mem_cons_of_mem x hb))
      simpa [List.flatMap_cons] using hexPairs_byteToHex hx hxs
  simp only [hexToString, Hash.hex]
  rw [if_pos (Or.inl trivial)]
  exact key h.bytes hwf

theorem isWs_false_of_goodStart {c : Nat} (h : goodStart c) : isWs c = false := by
  unfold goodStart at h
  simp only [isWs, Bool.or_eq_false_iff, beq_eq_false_iff_ne, ne_eq]
  omega

theorem skipWs_cons {c : Nat} (h : isWs c = false) (l : List Nat) :
    skipWs (c :: l) = c :: l := by
  simp [skipWs, h]

theorem parseStrBody_ser (s rest : List Nat) :
    parseStrBody (s.flatMap escByte ++ 34 :: rest) = some (s, rest) := by
  induction s with
  | nil =>
    rw [List.flatMap_nil, List.nil_append, parseStrBody.eq_def]
    simp
  | cons b bs ih =>
    rw [List.flatMap_cons]
    by_cases h34 : b = 34
    · subst h34
      show parseStrBody ([92, 34] ++ bs.flatMap escByte ++ 34 :: rest) = _
      rw [parseStrBody.eq_def]
      simp only [List.cons_append, List.nil_append]
      simp [unescape, ih]
    · by_cases h92 : b = 92
      · subst h92
        show parseStrBody ([92, 92] ++ bs.flatMap escByte ++ 34 :: rest) = _
        rw [parseStrBody.eq_def]
        simp only [List.cons_append, List.nil_append]
        simp [unescape, ih]
      · rw [show escByte b = [b] by simp [escByte, h34, h92]]
        rw [parseStrBody.eq_def]
        simp only [List.cons_append, List.nil_append]
        simp [h34, h92, ih]

theorem serNat_digits (n : Nat) : ∀ c ∈ serNat n, 48 ≤ c ∧ c ≤ 57 := by
  intro c hc
  unfold serNat at hc
  by_cases h : n = 0
  · rw [if_pos h] at hc
    simp at hc
    omega
  · rw [if_neg h] at hc
    simp only [List.mem_map, List.mem_reverse] at hc
    obtain ⟨d, hd, rfl⟩ := hc
    have : d < 10 := Nat.digits_lt_base (by norm_num) hd
    omega

theorem serNat_ne_nil (n : Nat) : serNat n ≠ [] := by
  unfold serNat
  by_cases h : n = 0
  · rw [if_pos h]
    simp
  · rw [if_neg h]
    simp [Nat.digits_ne_nil_iff_ne_zero, h]

theorem serNat_head (n : Nat) :
    ∃ c cs, serNat n = c :: cs ∧ 48 ≤ c ∧ c ≤ 57 := by
  match h : serNat n with
  | [] => exact absurd h (serNat_ne_nil n)
  | c :: cs =>
    have hmem : c ∈ serNat n := by
      rw [h]
      exact List.mem_cons_self ..
    exact ⟨c, cs, rfl, serNat_digits n c hmem⟩

theorem takeDigits_append {ds rest : List Nat}
    (hds : ∀ c ∈ ds, 48 ≤ c ∧ c ≤ 57) (hrest : notDigitStart rest) :
    takeDigits (ds ++ rest) = (ds.map (fun c => c - 48), rest) := by
  induction ds with
  | nil =>
    simp only [List.nil_append, List.map_nil]
    cases rest with
    | nil => rfl
    | cons c t =>
      unfold notDigitStart at hrest
      simp [takeDigits, hrest]
  | cons d ds ih =>
    have hd := hds d (List.mem_cons_self ..)
    have ih2 := ih (fun c hc => hds c (List.mem_cons_of_mem _ hc))
    simp [takeDigits, hd, ih2]

theorem foldr_eq_ofDigits (L : List Nat) :
    L.foldr (fun d a => 10 * a + d) 0 = Nat.ofDigits 10 L := by
  induction L with
  | nil => simp [Nat.ofDigits]
  | cons d t ih =>
    simp only [List.foldr_cons, Nat.ofDigits_cons, ih]
    ring

theorem digitsVal_serNat (n : Nat) :
    digitsVal ((serNat n).map (fun c => c - 48)) = n := by
  unfold serNat
  by_cases h : n = 0
  · rw [if_pos h]
    simp [digitsVal, h]
  · rw [if_neg h]
    rw [List.map_map]
    have hmap : ((fun c => c - 48) ∘ fun d => 48 + d) = id := by
      funext d
      simp
    rw [hmap, List.map_id]
    unfold digitsVal
    rw [List.foldl_reverse]
    rw [foldr_eq_ofDigits]
    exact_mod_cast Nat.ofDigits_digits 10 n

theorem parseNum_ser (n : Nat) {rest : List Nat} (hrest : notDigitStart rest) :
    parseNum (serNat n ++ rest) = some (n, rest) := by
  unfold parseNum
  rw [takeDigits_append (serNat_digits n) hrest]
  have hne : ((serNat n).map (fun c => c - 48)).isEmpty = false := by
    obtain ⟨c, cs, hcons, -, -⟩ := serNat_head n
    rw [hcons]
    rfl
  simp only [hne, Bool.false_eq_true, if_false]
  rw [digitsVal_serNat n]

theorem serVal_ne_nil (v : JVal) : serVal v ≠ [] := by
  cases v with
  | null => simp [serVal]
  | bool b => cases b <;> simp [serVal]
  | num n =>
    cases n with
    | ofNat m => simpa [serVal, serInt] using serNat_ne_nil m
    | negSucc m => simp [serVal, serInt]
  | str s => simp [serVal, serStrB]
  | arr xs => simp [serVal]
  | obj fs => simp [serVal]

theorem serVal_head (v : JVal) :
    ∃ c cs, serVal v = c :: cs ∧ goodStart c := by
  cases v with
  | null => exact ⟨110, _, rfl, by unfold goodStart; omega⟩
  | bool b =>
    cases b with
    | true => exact ⟨116, _, rfl, by unfold goodStart; omega⟩
    | false => exact ⟨102, _, rfl, by unfold goodStart; omega⟩
  | num n =>
    cases n with
    | ofNat m =>
      obtain ⟨c, cs, hc, h1, h2⟩ := serNat_head m
      exact ⟨c, cs, by simpa [serVal, serInt] using hc, by unfold goodStart; omega⟩
    | negSucc m => exact ⟨45, _, rfl, by unfold goodStart; omega⟩
  | str s => exact ⟨34, _, rfl, by unfold goodStart; omega⟩
  | arr xs => exact ⟨91, _, rfl, by unfold goodStart; omega⟩
  | obj fs => exact ⟨123, _, rfl, by unfold goodStart; omega⟩

theorem serElems_head {xs : List JVal} (h : xs ≠ []) :
    ∃ c cs, serElems xs = c :: cs ∧ goodStart c := by
  match xs with
  | [x] => simpa [serElems] using serVal_head x
  | x :: y :: t =>
    obtain ⟨c, cs, hc, hg⟩ := serVal_head x
    exact ⟨c, cs ++ 44 :: serElems (y :: t), by simp [serElems, hc], hg⟩

theorem serFields_head {fs : List (List Nat × JVal)} (h : fs ≠ []) :
    ∃ cs, serFields fs = 34 :: cs := by
  match fs with
  | [(k, v)] =>
    exact ⟨(k.flatMap escByte ++ [34]) ++ 58 :: serVal v,
      by simp [serFields, serStrB]⟩
  | (k, v) :: f :: t =>
    exact ⟨(k.flatMap escByte ++ [34]) ++ 58 :: serVal v ++ 44 :: serFields (f :: t),
      by simp [serFields, serStrB]⟩

theorem fuelV_pos (v : JVal) : 1 ≤ fuelV v := by
  cases v <;> simp [fuelV] <;> omega

theorem fuelE_pos (xs : List JVal) : 1 ≤ fuelE xs := by
  cases xs
  all_goals simp [fuelE]
  all_goals omega

theorem fuelF_pos (fs : List (List Nat × JVal)) : 1 ≤ fuelF fs := by
  cases fs
  all_goals simp [fuelF]
  all_goals omega

theorem parseElems_ser {xs : List JVal} (hPV : ∀ x ∈ xs, ParsesSer x) :
    xs ≠ [] → ∀ fuel rest, fuelE xs ≤ fuel →
      parseElems fuel (serElems xs ++ 93 :: rest) = some (xs, rest) := by
  induction xs with
  | nil => intro h; exact absurd rfl h
  | cons x t ih =>
    intro _ fuel rest hfuel
    have hx : ParsesSer x := hPV x (List.mem_cons_self ..)
    have hft : 1 ≤ fuelE t := fuelE_pos t
    have hfe : fuelE (x :: t) = 1 + fuelV x + fuelE t := by simp [fuelE]
    obtain ⟨f, rfl⟩ : ∃ f, fuel = f + 1 := ⟨fuel - 1, by omega⟩
    cases t with
    | nil =>
      have h1 : parseVal f (serVal x ++ 93 :: rest) = some (x, 93 :: rest) := by
        apply hx
        · simp [fuelE] at hfe hfuel
          omega
        · unfold notDigitStart
          omega
      rw [show serElems [x] = serVal x from rfl]
      rw [parseElems.eq_def]
      simp only [h1]
      rw [skipWs_cons (by decide)]
      norm_num
    | cons y t2 =>
      have hrw : serElems (x :: y :: t2) ++ 93 :: rest
          = serVal x ++ 44 :: (serElems (y :: t2) ++ 93 :: rest) := by
        simp [serElems]
      have h1 : parseVal f (serVal x ++ 44 :: (serElems (y :: t2) ++ 93 :: rest))
          = some (x, 44 :: (serElems (y :: t2) ++ 93 :: rest)) := by
        apply hx
        · omega
        · unfold notDigitStart
          omega
      have h2 := ih (fun z hz => hPV z (List.mem_cons_of_mem _ hz))
        (by simp) f rest (by simp [fuelE] at hfuel ⊢; omega)
      rw [hrw, parseElems.eq_def]
      simp only [h1]
      rw [skipWs_cons (by decide)]
      norm_num [h2]
theorem parseFields_ser {fs : List (List Nat × JVal)}
    (hPV : ∀ f ∈ fs, ParsesSer f.2) :
    fs ≠ [] → ∀ fuel rest, fuelF fs ≤ fuel →
      parseFields fuel (serFields fs ++ 125 :: rest) = some (fs, rest) := by
  induction fs with
  | nil => intro h; exact absurd rfl h
  | cons kv t ih =>
    intro _ fuel rest hfuel
    obtain ⟨k, v⟩ := kv
    have hv : ParsesSer v := hPV (k, v) (List.mem_cons_self ..)
    have hft : 1 ≤ fuelF t := fuelF_pos t
    have hfe : fuelF ((k, v) :: t) = 1 + fuelV v + fuelF t := by simp [fuelF]
    obtain ⟨f, rfl⟩ : ∃ f, fuel = f + 1 := ⟨fuel - 1, by omega⟩
    cases t with
    | nil =>
      have hrw : serFields [(k, v)] ++ 125 :: rest
          = 34 :: (k.flatMap escByte ++ 34 :: (58 :: (serVal v ++ 125 :: rest))) := by
        simp [serFields, serStrB]
      have hstr := parseStrBody_ser k (58 :: (serVal v ++ 125 :: rest))
      have h1 : parseVal f (serVal v ++ 125 :: rest) = some (v, 125 :: rest) := by
        apply hv
        · simp [fuelF] at hfuel
          omega
        · unfold notDigitStart
          omega
      have hws58 : skipWs (58 :: (serVal v ++ 125 :: rest))
          = 58 :: (serVal v ++ 125 :: rest) := skipWs_cons (by decide) _
      have hws125 : skipWs (125 :: rest) = 125 :: rest := skipWs_cons (by decide) _
      have hws34 : skipWs (34 :: (k.flatMap escByte ++ 34 :: (58 :: (serVal v ++ 125 :: rest))))
          = 34 :: (k.flatMap escByte ++ 34 :: (58 :: (serVal v ++ 125 :: rest))) :=
        skipWs_cons (by decide) _
      rw [hrw, parseFields.eq_def]
      norm_num [hws34, hstr, hws58, h1, hws125]
    | cons kv2 t2 =>
      have hrw : serFields ((k, v) :: kv2 :: t2) ++ 125 :: rest
          = 34 :: (k.flatMap escByte ++ 34 ::
              (58 :: (serVal v ++ 44 :: (serFields (kv2 :: t2) ++ 125 :: rest)))) := by
        simp [serFields, serStrB]
      have hstr := parseStrBody_ser k
        (58 :: (serVal v ++ 44 :: (serFields (kv2 :: t2) ++ 125 :: rest)))
      have h1 : parseVal f (serVal v ++ 44 :: (serFields (kv2 :: t2) ++ 125 :: rest))
          = some (v, 44 :: (serFields (kv2 :: t2) ++ 125 :: rest)) := by
        apply hv
        · omega
        · unfold notDigitStart
          omega
      have h2 := ih (fun z hz => hPV z (List.mem_cons_of_mem _ hz))
        (by simp) f rest (by simp [fuelF] at hfuel ⊢; omega)
      have hws58 : skipWs (58 :: (serVal v ++ 44 :: (serFields (kv2 :: t2) ++ 125 :: rest)))
          = 58 :: (serVal v ++ 44 :: (serFields (kv2 :: t2) ++ 125 :: rest)) :=
        skipWs_cons (by decide) _
      have hws44 : skipWs (44 :: (serFields (kv2 :: t2) ++ 125 :: rest))
          = 44 :: (serFields (kv2 :: t2) ++ 125 :: rest) := skipWs_cons (by decide) _
      have hws34 : skipWs (34 :: (k.flatMap escByte ++ 34 ::
              (58 :: (serVal v ++ 44 :: (serFields (kv2 :: t2) ++ 125 :: rest)))))
          = 34 :: (k.flatMap escByte ++ 34 ::
              (58 :: (serVal v ++ 44 :: (serFields (kv2 :: t2) ++ 125 :: rest)))) :=
        skipWs_cons (by decide) _
      rw [hrw, parseFields.eq_def]
      norm_num [hws34, hstr, hws58, h1, hws44, h2]
theorem parseVal_ser_aux : ∀ n (v : JVal), sizeOf v ≤ n → ParsesSer v := by
  intro n
  induction n with
  | zero =>
    intro v hv
    exact absurd hv (by cases v <;> simp)
  | succ n ih =>
    intro v hv
    have hfv : 1 ≤ fuelV v := fuelV_pos v
    cases v with
    | null =>
      intro fuel rest hfuel hrest
      obtain ⟨f, rfl⟩ : ∃ f, fuel = f + 1 := ⟨fuel - 1, by omega⟩
      rw [show serVal .null = [110, 117, 108, 108] by simp [serVal]]
      have hws : skipWs (110 :: 117 :: 108 :: 108 :: rest)
          = 110 :: 117 :: 108 :: 108 :: rest := skipWs_cons (by decide) _
      rw [parseVal.eq_def]
      norm_num [hws, expectBytes]
    | bool b =>
      intro fuel rest hfuel hrest
      obtain ⟨f, rfl⟩ : ∃ f, fuel = f + 1 := ⟨fuel - 1, by omega⟩
      cases b with
      | true =>
        rw [show serVal (.bool true) = [116, 114, 117, 101] by simp [serVal]]
        have hws : skipWs (116 :: 114 :: 117 :: 101 :: rest)
            = 116 :: 114 :: 117 :: 101 :: rest := skipWs_cons (by decide) _
        rw [parseVal.eq_def]
        norm_num [hws, expectBytes]
      | false =>
        rw [show serVal (.bool false) = [102, 97, 108, 115, 101] by simp [serVal]]
        have hws : skipWs (102 :: 97 :: 108 :: 115 :: 101 :: rest)
            = 102 :: 97 :: 108 :: 115 :: 101 :: rest := skipWs_cons (by decide) _
        rw [parseVal.eq_def]
        norm_num [hws, expectBytes]
    | str sb =>
      intro fuel rest hfuel hrest
      obtain ⟨f, rfl⟩ : ∃ f, fuel = f + 1 := ⟨fuel - 1, by omega⟩
      have hrw : serVal (.str sb) ++ rest
          = 34 :: (sb.flatMap escByte ++ 34 :: rest) := by
        simp [serVal, serStrB]
      have hws : skipWs (34 :: (sb.flatMap escByte ++ 34 :: rest))
          = 34 :: (sb.flatMap escByte ++ 34 :: rest) := skipWs_cons (by decide) _
      rw [hrw, parseVal.eq_def]
      norm_num [hws, parseStrBody_ser]
    | num i =>
      intro fuel rest hfuel hrest
      obtain ⟨f, rfl⟩ : ∃ f, fuel = f + 1 := ⟨fuel - 1, by omega⟩
      cases i with
      | ofNat m =>
        obtain ⟨c, cs, hc, hcl, hcu⟩ := serNat_head m
        have hrw : serVal (.num (Int.ofNat m)) ++ rest = c :: (cs ++ rest) := by
          simp [serVal, serInt, hc]
        have hws : skipWs (c :: (cs ++ rest)) = c :: (cs ++ rest) :=
          skipWs_cons (by simp only [isWs, Bool.or_eq_false_iff,
            beq_eq_false_iff_ne, ne_eq]; omega) _
        have hnum : parseNum (c :: (cs ++ rest)) = some (m, rest) := by
          rw [show c :: (cs ++ rest) = serNat m ++ rest by rw [hc]; simp]
          exact parseNum_ser m hrest
        have e34 : ¬ c = 34 := by omega
        have e91 : ¬ c = 91 := by omega
        have e123 : ¬ c = 123 := by omega
        have e116 : ¬ c = 116 := by omega
        have e102 : ¬ c = 102 := by omega
        have e110 : ¬ c = 110 := by omega
        have e45 : ¬ c = 45 := by omega
        rw [hrw, parseVal.eq_def]
        simp only [hws]
        rw [if_neg e34, if_neg e91, if_neg e123, if_neg e116, if_neg e102,
          if_neg e110, if_neg e45, if_pos (by omega)]
        simp [hnum]
      | negSucc m =>
        have hrw : serVal (.num (Int.negSucc m)) ++ rest
            = 45 :: (serNat (m + 1) ++ rest) := by
          simp [serVal, serInt]
        have hws : skipWs (45 :: (serNat (m + 1) ++ rest))
            = 45 :: (serNat (m + 1) ++ rest) := skipWs_cons (by decide) _
        have hnum : parseNum (serNat (m + 1) ++ rest) = some (m + 1, rest) :=
          parseNum_ser (m + 1) hrest
        rw [hrw, parseVal.eq_def]
        norm_num [hws, hnum]
        rw [Int.negSucc_eq]
        ring
    | arr xs =>
      intro fuel rest hfuel hrest
      have hfe : fuelV (.arr xs) = 2 + fuelE xs := by simp [fuelV]
      have hfep : 1 ≤ fuelE xs := fuelE_pos xs
      obtain ⟨f, rfl⟩ : ∃ f, fuel = f + 1 := ⟨fuel - 1, by omega⟩
      cases xs with
      | nil =>
        rw [show serVal (.arr []) ++ rest = 91 :: (93 :: rest) by simp [serVal, serElems]]
        have hws : skipWs (91 :: (93 :: rest)) = 91 :: (93 :: rest) :=
          skipWs_cons (by decide) _
        have hws2 : skipWs (93 :: rest) = 93 :: rest := skipWs_cons (by decide) _
        rw [parseVal.eq_def]
        norm_num [hws, hws2]
      | cons x t =>
        have hmem : ∀ z ∈ x :: t, ParsesSer z := by
          intro z hz
          apply ih
          have h1 := List.sizeOf_lt_of_mem hz
          have h2 : sizeOf (JVal.arr (x :: t)) = 1 + sizeOf (x :: t) := by simp
          omega
        obtain ⟨c0, cs0, hc0, hg0⟩ := serElems_head (List.cons_ne_nil x t)
        have hrw : serVal (.arr (x :: t)) ++ rest
            = 91 :: (serElems (x :: t) ++ 93 :: rest) := by
          simp [serVal]
        have hws : skipWs (91 :: (serElems (x :: t) ++ 93 :: rest))
            = 91 :: (serElems (x :: t) ++ 93 :: rest) := skipWs_cons (by decide) _
        have hws2 : skipWs (serElems (x :: t) ++ 93 :: rest)
            = c0 :: (cs0 ++ 93 :: rest) := by
          rw [hc0, List.cons_append]
          exact skipWs_cons (isWs_false_of_goodStart hg0) _
        have hpe : parseElems f (c0 :: (cs0 ++ 93 :: rest)) = some (x :: t, rest) := by
          rw [show c0 :: (cs0 ++ 93 :: rest) = serElems (x :: t) ++ 93 :: rest by
            simp [hc0]]
          exact parseElems_ser hmem (List.cons_ne_nil x t) f rest (by omega)
        have hne93 : ¬ c0 = 93 := by
          unfold goodStart at hg0
          omega
        rw [hrw, parseVal.eq_def]
        norm_num [hws, hws2, hne93, hpe]
    | obj fs =>
      intro fuel rest hfuel hrest
      have hfe : fuelV (.obj fs) = 2 + fuelF fs := by simp [fuelV]
      have hfep : 1 ≤ fuelF fs := fuelF_pos fs
      obtain ⟨f, rfl⟩ : ∃ f, fuel = f + 1 := ⟨fuel - 1, by omega⟩
      cases fs with
      | nil =>
        rw [show serVal (.obj []) ++ rest = 123 :: (125 :: rest) by simp [serVal, serFields]]
        have hws : skipWs (123 :: (125 :: rest)) = 123 :: (125 :: rest) :=
          skipWs_cons (by decide) _
        have hws2 : skipWs (125 :: rest) = 125 :: rest := skipWs_cons (by decide) _
        rw [parseVal.eq_def]
        norm_num [hws, hws2]
      | cons kv t =>
        have hmem : ∀ z ∈ kv :: t, ParsesSer z.2 := by
          intro z hz
          apply ih
          have h1 := List.sizeOf_lt_of_mem hz
          have h2 : sizeOf (JVal.obj (kv :: t)) = 1 + sizeOf (kv :: t) := by simp
          have h3 : sizeOf z.2 < sizeOf z := by
            obtain ⟨zk, zv⟩ := z
            simp
          omega
        obtain ⟨cs0, hc0⟩ := serFields_head (List.cons_ne_nil kv t)
        have hrw : serVal (.obj (kv :: t)) ++ rest
            = 123 :: (serFields (kv :: t) ++ 125 :: rest) := by
          simp [serVal]
        have hws : skipWs (123 :: (serFields (kv :: t) ++ 125 :: rest))
            = 123 :: (serFields (kv :: t) ++ 125 :: rest) := skipWs_cons (by decide) _
        have hws2 : skipWs (serFields (kv :: t) ++ 125 :: rest)
            = 34 :: (cs0 ++ 125 :: rest) := by
          rw [hc0, List.cons_append]
          exact skipWs_cons (by decide) _
        have hpf : parseFields f (34 :: (cs0 ++ 125 :: rest)) = some (kv :: t, rest) := by
          rw [show (34 : Nat) :: (cs0 ++ 125 :: rest) = serFields (kv :: t) ++ 125 :: rest by
            simp [hc0]]
          exact parseFields_ser hmem (List.cons_ne_nil kv t) f rest (by omega)
        rw [hrw, parseVal.eq_def]
        norm_num [hws, hws2, hpf]

theorem parseVal_ser (v : JVal) : ParsesSer v :=
  parseVal_ser_aux (sizeOf v) v le_rfl
theorem fuelE_le_serElems {xs : List JVal}
    (h : ∀ x ∈ xs, fuelV x ≤ 2 * (serVal x).length) (hne : xs ≠ []) :
    fuelE xs ≤ 2 + 2 * (serElems xs).length := by
  induction xs with
  | nil => exact absurd rfl hne
  | cons x t ih =>
    have hx := h x (List.mem_cons_self ..)
    cases t with
    | nil =>
      simp only [fuelE, serElems]
      omega
    | cons y t2 =>
      have ht := ih (fun z hz => h z (List.mem_cons_of_mem _ hz)) (by simp)
      simp only [fuelE, serElems, List.length_append, List.length_cons] at ht ⊢
      omega

theorem fuelF_le_serFields {fs : List (List Nat × JVal)}
    (h : ∀ f ∈ fs, fuelV f.2 ≤ 2 * (serVal f.2).length) (hne : fs ≠ []) :
    fuelF fs ≤ 2 + 2 * (serFields fs).length := by
  induction fs with
  | nil => exact absurd rfl hne
  | cons kv t ih =>
    have hx := h kv (List.mem_cons_self ..)
    obtain ⟨k, v⟩ := kv
    cases t with
    | nil =>
      simp only [fuelF, serFields, List.length_append, List.length_cons] at hx ⊢
      omega
    | cons kv2 t2 =>
      have ht := ih (fun z hz => h z (List.mem_cons_of_mem _ hz)) (by simp)
      simp only [fuelF, serFields, List.length_append, List.length_cons] at hx ht ⊢
      omega

theorem fuelV_le_serVal_aux :
    ∀ n (v : JVal), sizeOf v ≤ n → fuelV v ≤ 2 * (serVal v).length := by
  intro n
  induction n with
  | zero =>
    intro v hv
    exact absurd hv (by cases v <;> simp)
  | succ n ih =>
    intro v hv
    cases v with
    | null => simp [fuelV, serVal]
    | bool b => cases b <;> simp [fuelV, serVal]
    | num i =>
      have hne := serVal_ne_nil (.num i)
      have hlen : 1 ≤ (serVal (.num i)).length := by
        cases h : serVal (.num i) with
        | nil => exact absurd h hne
        | cons a t => simp
      simp only [fuelV]
      omega
    | str sb =>
      simp [fuelV, serVal, serStrB]
      omega
    | arr xs =>
      cases xs with
      | nil => simp [fuelV, fuelE, serVal, serElems]
      | cons x t =>
        have hmem : ∀ z ∈ x :: t, fuelV z ≤ 2 * (serVal z).length := by
          intro z hz
          apply ih
          have h1 := List.sizeOf_lt_of_mem hz
          have h2 : sizeOf (JVal.arr (x :: t)) = 1 + sizeOf (x :: t) := by simp
          omega
        have h3 := fuelE_le_serElems hmem (by simp)
        simp only [fuelV, serVal, List.length_cons, List.length_append] at h3 ⊢
        omega
    | obj fs =>
      cases fs with
      | nil => simp [fuelV, fuelF, serVal, serFields]
      | cons kv t =>
        have hmem : ∀ z ∈ kv :: t, fuelV z.2 ≤ 2 * (serVal z.2).length := by
          intro z hz
          apply ih
          have h1 := List.sizeOf_lt_of_mem hz
          have h2 : sizeOf (JVal.obj (kv :: t)) = 1 + sizeOf (kv :: t) := by simp
          have h3 : sizeOf z.2 < sizeOf z := by
            obtain ⟨zk, zv⟩ := z
            simp
          omega
        have h3 := fuelF_le_serFields hmem (by simp)
        simp only [fuelV, serVal, List.length_cons, List.length_append] at h3 ⊢
        omega

theorem fuelV_le_serVal (v : JVal) : fuelV v ≤ 2 * (serVal v).length :=
  fuelV_le_serVal_aux (sizeOf v) v le_rfl

theorem jsonParse_serVal (v : JVal) : jsonParse (serVal v) = some v := by
  unfold jsonParse
  have h := parseVal_ser v (2 * (serVal v).length + 1) []
    (by have := fuelV_le_serVal v; omega) trivial
  rw [List.append_nil] at h
  rw [h]
  simp [skipWs]

theorem add_some_obj {j j' : JVal} {k : List Nat} {v : JVal}
    (h : j.add k v = some j') :
    (∃ fs, j = .obj fs) ∧ ∃ fs', j' = .obj fs' := by
  cases j with
  | obj fs =>
    refine ⟨⟨fs, rfl⟩, ?_⟩
    simp only [JVal.add] at h
    by_cases hc : fs.any (fun f => f.1 == k)
    · rw [if_pos hc] at h
      exact ⟨_, (Option.some.injEq ..).mp h.symm⟩
    · rw [if_neg hc] at h
      exact ⟨_, (Option.some.injEq ..).mp h.symm⟩
  | null => exact absurd h (by simp [JVal.add])
  | bool b => exact absurd h (by simp [JVal.add])
  | num n => exact absurd h (by simp [JVal.add])
  | str s => exact absurd h (by simp [JVal.add])
  | arr xs => exact absurd h (by simp [JVal.add])

theorem find_repl_self {k : List Nat} {v : JVal}
    {fs : List (List Nat × JVal)} (hc : fs.any (fun f => f.1 == k) = true) :
    (fs.map (fun f => if f.1 == k then (k, v) else f)).find?
      (fun f => f.1 == k) = some (k, v) := by
  induction fs with
  | nil => simp at hc
  | cons f t ih =>
    rw [List.map_cons]
    by_cases hfk : (f.1 == k) = true
    · rw [show (if f.1 == k then (k, v) else f) = (k, v) by simp [hfk]]
      simp only [List.find?]
      simp
    · rw [show (if f.1 == k then (k, v) else f) = f by simp [hfk]]
      have hc2 : t.any (fun f => f.1 == k) = true := by
        simp only [List.any_cons, hfk, Bool.false_or] at hc
        simpa using hc
      simp only [List.find?]
      rw [Bool.not_eq_true] at hfk
      rw [hfk]
      exact ih hc2

theorem find_append_self {k : List Nat} {v : JVal}
    {fs : List (List Nat × JVal)} (hc : fs.any (fun f => f.1 == k) = false) :
    (fs ++ [(k, v)]).find? (fun f => f.1 == k) = some (k, v) := by
  induction fs with
  | nil =>
    simp only [List.nil_append, List.find?]
    simp
  | cons f t ih =>
    simp only [List.any_cons, Bool.or_eq_false_iff] at hc
    rw [List.cons_append]
    simp only [List.find?]
    rw [hc.1]
    exact ih hc.2

theorem find_repl_other {k kk : List Nat} {v : JVal} (hne : kk ≠ k)
    (fs : List (List Nat × JVal)) :
    (fs.map (fun f => if f.1 == k then (k, v) else f)).find?
      (fun f => f.1 == kk) = fs.find? (fun f => f.1 == kk) := by
  induction fs with
  | nil => rfl
  | cons f t ih =>
    rw [List.map_cons]
    by_cases hfk : (f.1 == k) = true
    · have hk : f.1 = k := beq_iff_eq.mp hfk
      rw [show (if f.1 == k then (k, v) else f) = (k, v) by simp [hfk]]
      simp only [List.find?]
      have h1 : ((k, v).1 == kk) = false := by
        simp
        exact fun hh => hne hh.symm
      have h2 : (f.1 == kk) = false := by
        rw [hk]
        simpa using fun hh => hne hh.symm
      rw [h1, h2]
      exact ih
    · rw [show (if f.1 == k then (k, v) else f) = f by simp [hfk]]
      simp only [List.find?]
      cases hfk2 : (f.1 == kk) with
      | true => rfl
      | false => exact ih

theorem find_append_other {k kk : List Nat} {v : JVal} (hne : kk ≠ k)
    (fs : List (List Nat × JVal)) :
    (fs ++ [(k, v)]).find? (fun f => f.1 == kk)
      = fs.find? (fun f => f.1 == kk) := by
  induction fs with
  | nil =>
    simp only [List.nil_append, List.find?]
    have h1 : ((k, v).1 == kk) = false := by
      simp
      exact fun hh => hne hh.symm
    rw [h1]
  | cons f t ih =>
    rw [List.cons_append]
    simp only [List.find?]
    cases hfk : (f.1 == kk) with
    | true => rfl
    | false => exact ih

theorem lookupKey_add_self {j j' : JVal} {k : List Nat} {v : JVal}
    (h : j.add k v = some j') :
    j'.lookupKey k = some v := by
  obtain ⟨⟨fs, rfl⟩, -⟩ := add_some_obj h
  simp only [JVal.add] at h
  by_cases hc : fs.any (fun f => f.1 == k)
  · rw [if_pos hc] at h
    obtain rfl := (Option.some.injEq ..).mp h.symm
    simp only [JVal.lookupKey]
    rw [find_repl_self hc]
    rfl
  · rw [if_neg hc] at h
    obtain rfl := (Option.some.injEq ..).mp h.symm
    simp only [JVal.lookupKey]
    rw [find_append_self (Bool.not_eq_true _ |>.mp hc)]
    rfl

theorem lookupKey_add_other {j j' : JVal} {k kk : List Nat} {v : JVal}
    (h : j.add k v = some j') (hne : kk ≠ k) :
    j'.lookupKey kk = j.lookupKey kk := by
  obtain ⟨⟨fs, rfl⟩, -⟩ := add_some_obj h
  simp only [JVal.add] at h
  by_cases hc : fs.any (fun f => f.1 == k)
  · rw [if_pos hc] at h
    obtain rfl := (Option.some.injEq ..).mp h.symm
    simp only [JVal.lookupKey]
    rw [find_repl_other hne]
  · rw [if_neg hc] at h
    obtain rfl := (Option.some.injEq ..).mp h.symm
    simp only [JVal.lookupKey]
    rw [find_append_other hne]

theorem keys_add {j j' : JVal} {k : List Nat} {v : JVal}
    (h : j.add k v = some j') :
    ∀ kk, kk ∈ j'.keys ↔ (kk = k ∨ kk ∈ j.keys) := by
  intro kk
  obtain ⟨⟨fs, rfl⟩, -⟩ := add_some_obj h
  simp only [JVal.add] at h
  by_cases hc : fs.any (fun f => f.1 == k)
  · rw [if_pos hc] at h
    obtain rfl := (Option.some.injEq ..).mp h.symm
    have hkeys : (fs.map (fun f => if f.1 == k then (k, v) else f)).map Prod.fst
        = fs.map Prod.fst := by
      rw [List.map_map]
      apply List.map_congr_left
      intro f hf
      by_cases hfk : (f.1 == k) = true
      · simp only [Function.comp_apply, hfk, if_true]
        exact (beq_iff_eq.mp hfk).symm
      · have hne2 : f.1 ≠ k := by simpa using hfk
        simp [Function.comp_apply, hfk, hne2]
    have hmem : k ∈ fs.map Prod.fst := by
      obtain ⟨f, hf, hfk⟩ := List.any_eq_true.mp hc
      exact List.mem_map.mpr ⟨f, hf, beq_iff_eq.mp hfk⟩
    simp only [JVal.keys, hkeys]
    constructor
    · exact Or.inr
    · rintro (rfl | hm)
      · exact hmem
      · exact hm
  · rw [if_neg hc] at h
    obtain rfl := (Option.some.injEq ..).mp h.symm
    simp only [JVal.keys, List.map_append, List.map_cons, List.map_nil,
      List.mem_append, List.mem_cons, List.not_mem_nil, or_false]
    constructor
    · rintro (hm | rfl)
      · exact Or.inr hm
      · exact Or.inl rfl
    · rintro (rfl | hm)
      · exact Or.inr rfl
      · exact Or.inl hm
theorem dropWhile_replicate_zero (k : Nat) (l : List Nat) :
    (List.replicate k 0 ++ l).dropWhile (fun b => b == 0)
      = l.dropWhile (fun b => b == 0) := by
  induction k with
  | zero => rfl
  | succ k ih => simp [List.replicate_succ, List.dropWhile_cons, ih]

theorem trimTrailingZeros_append_zeros (l : List Nat) (k : Nat) :
    trimTrailingZeros (l ++ List.replicate k 0) = trimTrailingZeros l := by
  unfold trimTrailingZeros
  rw [List.reverse_append, List.reverse_replicate, dropWhile_replicate_zero]

theorem trimTrailingZeros_of_no_zero {l : List Nat} (h : ∀ b ∈ l, b ≠ 0) :
    trimTrailingZeros l = l := by
  unfold trimTrailingZeros
  have hdrop : l.reverse.dropWhile (fun b => b == 0) = l.reverse := by
    cases hr : l.reverse with
    | nil => rfl
    | cons c t =>
      have hc : c ∈ l := by
        have : c ∈ l.reverse := by
          rw [hr]
          exact List.mem_cons_self ..
        simpa using this
      have : (c == 0) = false := by
        simpa using h c hc
      rw [List.dropWhile_cons, this]
      simp
  rw [hdrop, List.reverse_reverse]

theorem natToBE_length (k n : Nat) : (natToBE k n).length = k := by
  induction k generalizing n with
  | zero => rfl
  | succ k ih => simp [natToBE, ih]

theorem abiEncodeString_drop64 (x : JVal) :
    (abiEncodeString x).drop 64
      = serVal x ++ List.replicate ((32 - (serVal x).length % 32) % 32) 0 := by
  unfold abiEncodeString
  rw [List.append_assoc]
  rw [show (64 : Nat) = (natToBE 32 32 ++ natToBE 32 (serVal x).length).length by
    simp [natToBE_length]]
  exact List.drop_left _ _
theorem collectSubs_eq (subscribe : Initiator → Except Nat RpcSub) (job : Job)
    (cb : Callback) (initrs : List Initiator) :
    collectSubs subscribe job cb initrs
      = (successesOf subscribe job cb initrs, failuresOf subscribe initrs) := by
  induction initrs with
  | nil => rfl
  | cons i t ih =>
    simp only [collectSubs, successesOf, failuresOf, NewRpcLogSubscription,
      List.filterMap_cons] at ih ⊢
    cases hs : subscribe i with
    | error e => simp [hs, ih]
    | ok rpc => simp [hs, ih]

theorem successesOf_eq_nil_iff (subscribe : Initiator → Except Nat RpcSub)
    (job : Job) (cb : Callback) (initrs : List Initiator) :
    successesOf subscribe job cb initrs = []
      ↔ ∀ i ∈ initrs, ∃ e, subscribe i = .error e := by
  unfold successesOf
  rw [List.filterMap_eq_nil_iff]
  constructor
  · intro h i hi
    have := h i hi
    cases hs : subscribe i with
    | error e => exact ⟨e, rfl⟩
    | ok rpc => rw [hs] at this; simp at this
  · intro h i hi
    obtain ⟨e, he⟩ := h i hi
    rw [he]

theorem decodeABIToJSON_ok_inv {data : List Nat} {emb : JVal}
    (h : decodeABIToJSON data = .ok (.ok emb)) :
    64 ≤ data.length ∧
      jsonParse (trimTrailingZeros (data.drop 64)) = some emb := by
  unfold decodeABIToJSON at h
  by_cases hlen : data.length < 64
  · rw [if_pos hlen] at h
    exact absurd h (by simp)
  · rw [if_neg hlen] at h
    refine ⟨by omega, ?_⟩
    cases hp : jsonParse (trimTrailingZeros (data.drop 64)) with
    | none => rw [hp] at h; exact absurd h (by simp)
    | some js =>
      rw [hp] at h
      simp only [Except.ok.injEq] at h
      rw [h]

theorem RunLogJSON_ok_inv {le : RpcLogEvent} {out : JVal}
    (h : RunLogJSON le = .ok (.ok out)) :
    ∃ emb j2 t j3,
      decodeABIToJSON le.log.data = .ok (.ok emb) ∧
      emb.add addressKey (.str (addressHex le.log.address)) = some j2 ∧
      le.log.topics.get? EventTopicRequestID = some t ∧
      j2.add dataPrefixKey (.str (Hash.hex t)) = some j3 ∧
      j3.add functionSelectorKey (.str functionSelectorValue) = some out := by
  unfold RunLogJSON at h
  split at h
  · exact absurd h (by simp)
  · exact absurd h (by simp)
  · rename_i emb hd
    split at h
    · exact absurd h (by simp)
    · rename_i j2 ha
      split at h
      · exact absurd h (by simp)
      · rename_i t ht
        split at h
        · exact absurd h (by simp)
        · rename_i j3 hb
          split at h
          · exact absurd h (by simp)
          · rename_i j4 hcs
            simp only [Except.ok.injEq] at h
            exact ⟨emb, j2, t, j3, hd, ha, ht, hb, by rw [hcs, h]⟩

theorem isRunLog_length {log : Log} (h : isRunLog log = true) :
    log.topics.length = 3 := by
  unfold isRunLog at h
  simp only [Bool.and_eq_true, decide_eq_true_eq] at h
  exact h.1

theorem ValidateRunLog_total (le : RpcLogEvent) :
    ∃ b, ValidateRunLog le = .ok b := by
  unfold ValidateRunLog
  by_cases hr : isRunLog le.log
  · have hlen := isRunLog_length hr
    have hget : ∃ t, le.log.topics.get? EventTopicJobID = some t := by
      cases hg : le.log.topics.get? EventTopicJobID with
      | none =>
        rw [List.get?_eq_none] at hg
        unfold EventTopicJobID at hg
        omega
      | some t => exact ⟨t, rfl⟩
    obtain ⟨t, ht⟩ := hget
    rw [hr]
    unfold jobIDFromLog
    rw [ht]
    cases hx : hexToString (Hash.hex t) with
    | none => exact ⟨false, by simp [hx]⟩
    | some jid => exact ⟨decide (jid = le.job.id), by simp [hx]⟩
  · rw [Bool.not_eq_true] at hr
    rw [hr]
    exact ⟨false, rfl⟩
theorem ValidateRunLog_true_iff (le : RpcLogEvent) :
    ValidateRunLog le = .ok true ↔
      (le.log.topics.length = 3 ∧
        le.log.topics.get? 0 = some RunLogTopic ∧
        jobIDFromLog le.log = .ok (some le.job.id)) := by
  unfold ValidateRunLog
  by_cases hr : isRunLog le.log
  · have hr2 := hr
    unfold isRunLog at hr2
    simp only [Bool.and_eq_true, decide_eq_true_eq] at hr2
    rw [hr]
    cases hj : jobIDFromLog le.log with
    | error p =>
      simp only [hj, Bool.not_true, Bool.false_eq_true, if_false]
      constructor
      · intro h
        exact absurd h (by simp)
      · rintro ⟨-, -, h3⟩
        exact absurd h3 (by simp)
    | ok o =>
      cases o with
      | none =>
        simp only [hj, Bool.not_true, Bool.false_eq_true, if_false]
        constructor
        · intro h
          exact absurd h (by simp)
        · rintro ⟨-, -, h3⟩
          exact absurd h3 (by simp)
      | some jid =>
        simp only [hj, Bool.not_true, Bool.false_eq_true, if_false]
        constructor
        · intro h
          have hid : jid = le.job.id := by simpa using h
          exact ⟨hr2.1, hr2.2, by rw [hid]⟩
        · rintro ⟨-, -, h3⟩
          simp only [Except.ok.injEq, Option.some.injEq] at h3
          simp [h3]
  · rw [Bool.not_eq_true] at hr
    rw [hr]
    constructor
    · intro h
      exact absurd h (by simp)
    · rintro ⟨h1, h2, -⟩
      unfold isRunLog at hr
      rw [h1, h2] at hr
      simp at hr

theorem decodeABIToJSON_error_inv {data : List Nat} {p : Panic}
    (h : decodeABIToJSON data = .error p) : p = Panic.dataSlice := by
  unfold decodeABIToJSON at h
  split at h
  · simp only [Except.error.injEq] at h
    exact h.symm
  · split at h
    · exact absurd h (by simp)
    · exact absurd h (by simp)

theorem RunLogJSON_error_inv {le : RpcLogEvent} {p : Panic}
    (ht : ∃ t, le.log.topics.get? EventTopicRequestID = some t)
    (h : RunLogJSON le = .error p) : p = Panic.dataSlice := by
  unfold RunLogJSON at h
  split at h
  · rename_i p2 hd
    simp only [Except.error.injEq] at h
    rw [← h]
    exact decodeABIToJSON_error_inv hd
  · exact absurd h (by simp)
  · split at h
    · exact absurd h (by simp)
    · split at h
      · rename_i hnone
        obtain ⟨t, ht2⟩ := ht
        rw [ht2] at hnone
        exact absurd hnone (by simp)
      · split at h
        · exact absurd h (by simp)
        · split at h
          · exact absurd h (by simp)
          · exact absurd h (by simp)

theorem successesOf_ne_nil {subscribe : Initiator → Except Nat RpcSub}
    {job : Job} {cb : Callback} {initrs : List Initiator} {i : Initiator}
    {rpc : RpcSub} (hi : i ∈ initrs) (hok : subscribe i = .ok rpc) :
    successesOf subscribe job cb initrs ≠ [] := by
  intro hnil
  rw [successesOf_eq_nil_iff] at hnil
  obtain ⟨e, he⟩ := hnil i hi
  rw [hok] at he
  exact absurd he (by simp)
/-- Claim C1: validate accepts a raw event for the RunLog path if and only
if the event has exactly 3 topics, topic 0 equals the fixed RunLog event
signature constant, and the job identifier decoded from the hex encoding
of topic 2 equals the id of the watching job; every event failing any of
these checks is rejected and neither decodes its payload nor dispatches a
run input. -/
theorem claim_C1 (le : RpcLogEvent) :
    (ValidateRunLog le = .ok true ↔
      (le.log.topics.length = 3 ∧
        le.log.topics.get? EventTopicSignature = some RunLogTopic ∧
        jobIDFromLog le.log = .ok (some le.job.id))) ∧
    (ValidateRunLog le = .ok false →
      ∀ beginRun, ReceiveRunLog beginRun le = .ok []) := by
  constructor
  · exact ValidateRunLog_true_iff le
  · intro hv beginRun
    unfold ReceiveRunLog
    rw [hv]

/-- Witness for claim C1 at a concrete event whose job id topic does not
match the watching job: validation rejects it and the handler neither
decodes nor dispatches. -/
theorem claim_C1_witness :
    ValidateRunLog wrongJobEvent = .ok false ∧
      ReceiveRunLog (fun _ _ => true) wrongJobEvent = .ok [] :=
  ⟨by rfl, (claim_C1 wrongJobEvent).2 (by rfl) (fun _ _ => true)⟩

/-- Claim C10: in the RunLog handling path every topic index access happens
only after validation established that the event has exactly 3 topics:
validation itself always returns a verdict without faulting, a validated
event has exactly 3 topics, and the only fault the handler can raise is
the data-slice panic of the decoder, never a topic index fault. -/
theorem claim_C10 (le : RpcLogEvent) (beginRun : Job → JVal → Bool) :
    (∃ b, ValidateRunLog le = .ok b) ∧
    (ValidateRunLog le = .ok true → le.log.topics.length = 3) ∧
    (∀ p, ReceiveRunLog beginRun le = .error p → p = Panic.dataSlice) := by
  refine ⟨ValidateRunLog_total le, ?_, ?_⟩
  · intro hv
    exact ((ValidateRunLog_true_iff le).mp hv).1
  · intro p hp
    unfold ReceiveRunLog at hp
    obtain ⟨b, hb⟩ := ValidateRunLog_total le
    rw [hb] at hp
    cases b with
    | false => exact absurd hp (by simp)
    | true =>
      have hlen := ((ValidateRunLog_true_iff le).mp hb).1
      have ht : ∃ t, le.log.topics.get? EventTopicRequestID = some t := by
        cases hg : le.log.topics.get? EventTopicRequestID with
        | none =>
          rw [List.get?_eq_none] at hg
          unfold EventTopicRequestID at hg
          omega
        | some t => exact ⟨t, rfl⟩
      cases hj : RunLogJSON le with
      | error p2 =>
        rw [hj] at hp
        simp only [Except.error.injEq] at hp
        rw [← hp]
        exact RunLogJSON_error_inv ht hj
      | ok q =>
        rw [hj] at hp
        cases q with
        | error e => exact absurd hp (by simp)
        | ok data => exact absurd hp (by simp)

/-- Witness for claim C10 at a concrete validated event with an empty data
blob: the handler faults only with the data-slice panic. -/
theorem claim_C10_witness :
    ReceiveRunLog (fun _ _ => true) shortDataEvent = .error Panic.dataSlice ∧
      ValidateRunLog shortDataEvent = .ok true ∧
      shortDataEvent.log.topics.length = 3 :=
  ⟨by rfl, by rfl,
    (claim_C10 shortDataEvent (fun _ _ => true)).2.1 (by rfl)⟩

/-- Claim C8: each raw event handed to a receive handler produces at most
one dispatched run input on the RunLog path and on the EthLog path, and
runJob hands exactly one run input to the execution engine whatever the
engine answers, so a rejection is logged but never redispatched. -/
theorem claim_C8 (beginRun : Job → JVal → Bool) (le : RpcLogEvent) :
    (∀ tr, ReceiveRunLog beginRun le = .ok tr →
      (tr.filter HandlerStep.isDispatch).length ≤ 1) ∧
    ((ReceiveEthLog beginRun le).filter HandlerStep.isDispatch).length ≤ 1 ∧
    (∀ data, (runJob beginRun le data).filter HandlerStep.isDispatch
      = [.dispatch le.job data]) := by
  have hrun : ∀ data, (runJob beginRun le data).filter HandlerStep.isDispatch
      = [.dispatch le.job data] := by
    intro data
    unfold runJob
    by_cases hb : beginRun le.job data
    · rw [if_pos hb]
      simp [HandlerStep.isDispatch]
    · rw [if_neg hb]
      simp [HandlerStep.isDispatch]
  refine ⟨?_, ?_, hrun⟩
  · intro tr htr
    unfold ReceiveRunLog at htr
    obtain ⟨b, hb⟩ := ValidateRunLog_total le
    rw [hb] at htr
    cases b with
    | false =>
      simp only [Except.ok.injEq] at htr
      simp [← htr]
    | true =>
      cases hj : RunLogJSON le with
      | error p => rw [hj] at htr; exact absurd htr (by simp)
      | ok q =>
        rw [hj] at htr
        cases q with
        | error e =>
          simp only [Except.ok.injEq] at htr
          simp [← htr]
        | ok data =>
          simp only [Except.ok.injEq] at htr
          rw [← htr, hrun data]
          simp
  · unfold ReceiveEthLog
    rw [hrun]
    simp

/-- Witness for claim C8 at a concrete valid event and a rejecting engine:
the trace holds one dispatch and one rejection log step, and at most one
dispatch. -/
theorem claim_C8_witness :
    ReceiveRunLog (fun _ _ => false) sampleEvent
        = .ok [.dispatch sampleJob sampleOut, .logDispatchError sampleJob] ∧
      (([HandlerStep.dispatch sampleJob sampleOut,
          HandlerStep.logDispatchError sampleJob]).filter
        HandlerStep.isDispatch).length ≤ 1 :=
  ⟨by rfl, (claim_C8 (fun _ _ => false) sampleEvent).1 _ (by rfl)⟩
/-- Claim C6: for every log subscription handle whose open succeeded
against a chain source delivering a standard rpc subscription (with its
Err channel allocated, as the client library always does), Unsubscribe
first unsubscribes from the upstream source and then releases the event
stream and the error stream, in that order. -/
theorem claim_C6 (subscribe : Initiator → Except Nat RpcSub)
    (initr : Initiator) (job : Job) (cb : Callback) (rpc : RpcSub)
    (sub : RpcLogSubscription)
    (hok : subscribe initr = .ok rpc) (hchan : rpc.errChanNonNil = true)
    (hnew : NewRpcLogSubscription subscribe initr job cb = (sub, none)) :
    sub.unsubscribeSteps
      = [.unsubscribeUpstream, .closeLogChannel, .closeErrorChannel] := by
  unfold NewRpcLogSubscription at hnew
  rw [hok] at hnew
  obtain ⟨h1, -⟩ := Prod.mk.injEq .. |>.mp hnew
  subst h1
  unfold RpcLogSubscription.unsubscribeSteps
  simp [hchan]

/-- Witness for claim C6 at a concrete open against an always-succeeding
source: teardown unsubscribes upstream before closing both channels. -/
theorem claim_C6_witness :
    okSource sampleInitiator = .ok ⟨true⟩ ∧
      NewRpcLogSubscription okSource sampleInitiator sampleJob .runLogCb
        = (sampleSubA, none) ∧
      sampleSubA.unsubscribeSteps
        = [.unsubscribeUpstream, .closeLogChannel, .closeErrorChannel] :=
  ⟨by rfl, by rfl,
    claim_C6 okSource sampleInitiator sampleJob .runLogCb ⟨true⟩ sampleSubA
      (by rfl) (by rfl) (by rfl)⟩

/-- Claim C7: closing a job subscription handle closes every retained child
log subscription in order whatever outcome each close has, and when the
children are distinct no child is closed twice. -/
theorem claim_C7 (js : JobSubscription)
    (closeOutcome : RpcLogSubscription → Bool) :
    ((js.unsubscribeAll closeOutcome).map Prod.fst = js.unsubscribers) ∧
    (js.unsubscribers.Nodup →
      ∀ s ∈ js.unsubscribers,
        ((js.unsubscribeAll closeOutcome).map Prod.fst).count s = 1) := by
  have hmap : (js.unsubscribeAll closeOutcome).map Prod.fst
      = js.unsubscribers := by
    unfold JobSubscription.unsubscribeAll
    rw [List.map_map]
    have hcomp : (Prod.fst ∘ fun s : RpcLogSubscription => (s, closeOutcome s))
        = fun s => s := rfl
    rw [hcomp]
    exact List.map_id' js.unsubscribers
  refine ⟨hmap, ?_⟩
  intro hnd s hs
  rw [hmap]
  exact List.count_eq_one_of_mem hnd hs

/-- Witness for claim C7 at a concrete handle with two distinct children
and a close oracle that fails every close: both children still appear in
the teardown trace and the first is closed exactly once. -/
theorem claim_C7_witness :
    sampleHandle.unsubscribers.Nodup ∧
      (sampleHandle.unsubscribeAll (fun _ => false)).map Prod.fst
        = sampleHandle.unsubscribers ∧
      ((sampleHandle.unsubscribeAll (fun _ => false)).map Prod.fst).count
        sampleSubA = 1 :=
  ⟨by decide, (claim_C7 sampleHandle (fun _ => false)).1,
    (claim_C7 sampleHandle (fun _ => false)).2 (by decide) sampleSubA
      (by decide)⟩
/-- Claim C2: whenever the RunLog decoder produces an output document, it
did so by stripping the leading 64 bytes of the data blob, trimming
trailing zero bytes, and parsing the remainder as JSON, and the output
carries the emitting address under the address key, the hex string of the
topic at index 1 under the dataPrefix key, the constant 76005c26 under the
functionSelector key, and exactly the keys of the embedded document plus
those three. -/
theorem claim_C2 (le : RpcLogEvent) (out : JVal)
    (h : RunLogJSON le = .ok (.ok out)) :
    ∃ emb t,
      64 ≤ le.log.data.length ∧
      jsonParse (trimTrailingZeros (le.log.data.drop 64)) = some emb ∧
      decodeABIToJSON le.log.data = .ok (.ok emb) ∧
      le.log.topics.get? EventTopicRequestID = some t ∧
      out.lookupKey addressKey = some (.str (addressHex le.log.address)) ∧
      out.lookupKey dataPrefixKey = some (.str (Hash.hex t)) ∧
      out.lookupKey functionSelectorKey = some (.str functionSelectorValue) ∧
      (∀ kk, kk ∈ out.keys ↔
        (kk = addressKey ∨ kk = dataPrefixKey ∨ kk = functionSelectorKey ∨
          kk ∈ emb.keys)) := by
  obtain ⟨emb, j2, t, j3, hd, ha, ht, hb, hcs⟩ := RunLogJSON_ok_inv h
  obtain ⟨hlen, hparse⟩ := decodeABIToJSON_ok_inv hd
  refine ⟨emb, t, hlen, hparse, hd, ht, ?_, ?_, ?_, ?_⟩
  · rw [lookupKey_add_other hcs (by decide), lookupKey_add_other hb (by decide)]
    exact lookupKey_add_self ha
  · rw [lookupKey_add_other hcs (by decide)]
    exact lookupKey_add_self hb
  · exact lookupKey_add_self hcs
  · intro kk
    rw [keys_add hcs kk, keys_add hb kk, keys_add ha kk]
    tauto

/-- Witness for claim C2 at a concrete valid event: the decoder output is
the embedded document augmented with the three fields, and it carries the
constant selector. -/
theorem claim_C2_witness :
    RunLogJSON sampleEvent = .ok (.ok sampleOut) ∧
      sampleOut.lookupKey functionSelectorKey
        = some (.str functionSelectorValue) := by
  have h : RunLogJSON sampleEvent = .ok (.ok sampleOut) := by rfl
  refine ⟨h, ?_⟩
  obtain ⟨emb, t, -, -, -, -, -, -, hfs, -⟩ := claim_C2 sampleEvent sampleOut h
  exact hfs

/-- Claim C9: encoding a JSON document whose serialization holds no zero
byte into the fixed-offset string format (32-byte head word, 32-byte
length word, serialized bytes zero-padded to a 32-byte boundary) and
decoding with the RunLog ABI decoder returns the document unchanged,
before the three augmented fields are attached. -/
theorem claim_C9 (x : JVal) (hz : ∀ b ∈ serVal x, b ≠ 0) :
    decodeABIToJSON (abiEncodeString x) = .ok (.ok x) := by
  unfold decodeABIToJSON
  have hlen : (abiEncodeString x).length
      = 64 + ((serVal x).length + (32 - (serVal x).length % 32) % 32) := by
    simp [abiEncodeString, natToBE_length]
    omega
  rw [if_neg (by omega)]
  rw [abiEncodeString_drop64, trimTrailingZeros_append_zeros,
    trimTrailingZeros_of_no_zero hz, jsonParse_serVal]

/-- Witness for claim C9 at the concrete document holding one string
value: encode then decode returns it unchanged. -/
theorem claim_C9_witness :
    (∀ b ∈ serVal sampleDoc, b ≠ 0) ∧
      decodeABIToJSON (abiEncodeString sampleDoc) = .ok (.ok sampleDoc) :=
  ⟨by decide, claim_C9 sampleDoc (by decide)⟩

/-- Counterexample to claim C5 as stated: shortDataEvent passes validation
and its empty data blob does not decode to valid JSON, yet decoding does
not yield a structured decode error and the handler faults with the
data-slice panic instead of dropping the event. -/
theorem claim_C5_counterexample :
    ValidateRunLog shortDataEvent = .ok true ∧
      decodeABIToJSON shortDataEvent.log.data = .error Panic.dataSlice ∧
      ReceiveRunLog (fun _ _ => true) shortDataEvent
        = .error Panic.dataSlice :=
  ⟨by rfl, by rfl, by rfl⟩

/-- Claim C5 as amended: for every validated RunLog event whose data blob
holds at least 64 bytes and whose stripped and trimmed remainder is not
valid JSON, decoding yields the structured invalid-JSON error and the
event is dropped with no dispatch, and one event of a stream is handled
independently of the others; an event whose data blob is shorter than 64
bytes instead faults in the decoder. -/
theorem claim_C5_amended (le : RpcLogEvent) (beginRun : Job → JVal → Bool)
    (hv : ValidateRunLog le = .ok true) (hlen : 64 ≤ le.log.data.length)
    (hbad : jsonParse (trimTrailingZeros (le.log.data.drop 64)) = none) :
    decodeABIToJSON le.log.data = .ok (.error .invalidJSON) ∧
    ReceiveRunLog beginRun le = .ok [] ∧
    (∀ recv es1 es2, listenToLogs recv (es1 ++ le :: es2)
      = listenToLogs recv es1 ++ recv le :: listenToLogs recv es2) := by
  have hd : decodeABIToJSON le.log.data = .ok (.error .invalidJSON) := by
    unfold decodeABIToJSON
    rw [if_neg (by omega), hbad]
  have hr : RunLogJSON le = .ok (.error .invalidJSON) := by
    unfold RunLogJSON
    rw [hd]
  refine ⟨hd, ?_, ?_⟩
  · unfold ReceiveRunLog
    rw [hv, hr]
  · intro recv es1 es2
    simp [listenToLogs]

/-- Witness for the amended claim C5 at a concrete validated event whose
payload byte 120 is not valid JSON: the event is dropped with no
dispatch. -/
theorem claim_C5_witness :
    (ValidateRunLog badJSONEvent = .ok true ∧
      64 ≤ badJSONEvent.log.data.length ∧
      jsonParse (trimTrailingZeros (badJSONEvent.log.data.drop 64)) = none) ∧
    ReceiveRunLog (fun _ _ => true) badJSONEvent = .ok [] :=
  ⟨⟨by rfl, by decide, by rfl⟩,
    (claim_C5_amended badJSONEvent (fun _ _ => true) (by rfl) (by decide)
      (by rfl)).2.1⟩
theorem StartJobSubscription_eq (subscribe : Initiator → Except Nat RpcSub)
    (job : Job) :
    StartJobSubscription subscribe job
      = (if (successesOf subscribe job .ethLogCb (job.initiatorsFor .ethLog)
            ++ successesOf subscribe job .runLogCb
                (job.initiatorsFor .runLog)).isEmpty
         then (⟨emptyJob, []⟩ : JobSubscription)
         else ⟨job, successesOf subscribe job .ethLogCb
                  (job.initiatorsFor .ethLog)
                ++ successesOf subscribe job .runLogCb
                  (job.initiatorsFor .runLog)⟩,
         ((failuresOf subscribe (job.initiatorsFor .ethLog)
            ++ failuresOf subscribe (job.initiatorsFor .runLog)).map
           JobSubErr.setup)
           ++ (if (successesOf subscribe job .ethLogCb
                  (job.initiatorsFor .ethLog)
                ++ successesOf subscribe job .runLogCb
                  (job.initiatorsFor .runLog)).isEmpty
               then [JobSubErr.noLogInitiator] else [])) := by
  simp only [StartJobSubscription, collectSubs_eq]
  by_cases he : (successesOf subscribe job .ethLogCb (job.initiatorsFor .ethLog)
      ++ successesOf subscribe job .runLogCb
        (job.initiatorsFor .runLog)).isEmpty
  · simp [he]
  · simp [he]

theorem noLogInitiator_not_mem_setup (es : List Nat) :
    JobSubErr.noLogInitiator ∉ es.map JobSubErr.setup := by
  intro hmem
  obtain ⟨e, -, habs⟩ := List.mem_map.mp hmem
  exact JobSubErr.noConfusion habs

/-- Claim C4: the open attempts a log subscription for each EthLog and then
each RunLog initiator independently, retains every success in order, and
the returned combined error value lists every setup failure across all
attempts in order (followed by the no-valid-log-initiator error exactly
when nothing was retained), also when the open as a whole succeeds. -/
theorem claim_C4 (subscribe : Initiator → Except Nat RpcSub) (job : Job) :
    (StartJobSubscription subscribe job).2
      = ((failuresOf subscribe (job.initiatorsFor .ethLog)
            ++ failuresOf subscribe (job.initiatorsFor .runLog)).map
          JobSubErr.setup)
        ++ (if (successesOf subscribe job .ethLogCb
                (job.initiatorsFor .ethLog)
              ++ successesOf subscribe job .runLogCb
                (job.initiatorsFor .runLog)).isEmpty
            then [JobSubErr.noLogInitiator] else []) ∧
    (StartJobSubscription subscribe job).1.unsubscribers
      = (if (successesOf subscribe job .ethLogCb (job.initiatorsFor .ethLog)
              ++ successesOf subscribe job .runLogCb
                (job.initiatorsFor .runLog)).isEmpty
         then []
         else successesOf subscribe job .ethLogCb (job.initiatorsFor .ethLog)
              ++ successesOf subscribe job .runLogCb
                (job.initiatorsFor .runLog)) := by
  rw [StartJobSubscription_eq]
  by_cases he : (successesOf subscribe job .ethLogCb (job.initiatorsFor .ethLog)
      ++ successesOf subscribe job .runLogCb
        (job.initiatorsFor .runLog)).isEmpty
  · simp [he]
  · simp [he]

/-- Claim C3: the job subscription open returns failure with zero retained
log subscriptions (the combined error carrying the no-valid-log-initiator
entry) if and only if every attempt for the EthLog and RunLog initiators
of the job failed, vacuously including a job with no log-type initiators;
whenever at least one attempt succeeds, the returned handle owns exactly
the successful subscriptions and no failure marker is attached. -/
theorem claim_C3 (subscribe : Initiator → Except Nat RpcSub) (job : Job) :
    (((StartJobSubscription subscribe job).1.unsubscribers = [] ∧
        JobSubErr.noLogInitiator ∈ (StartJobSubscription subscribe job).2) ↔
      (∀ i ∈ job.initiatorsFor .ethLog ++ job.initiatorsFor .runLog,
        ∃ e, subscribe i = .error e)) ∧
    ((∃ i ∈ job.initiatorsFor .ethLog ++ job.initiatorsFor .runLog,
        ∃ rpc, subscribe i = .ok rpc) →
      ((StartJobSubscription subscribe job).1.unsubscribers
        = successesOf subscribe job .ethLogCb (job.initiatorsFor .ethLog)
          ++ successesOf subscribe job .runLogCb
            (job.initiatorsFor .runLog) ∧
      JobSubErr.noLogInitiator ∉ (StartJobSubscription subscribe job).2)) := by
  by_cases he : (successesOf subscribe job .ethLogCb (job.initiatorsFor .ethLog)
      ++ successesOf subscribe job .runLogCb
        (job.initiatorsFor .runLog)).isEmpty
  · have hnil := List.isEmpty_iff.mp he
    rw [List.append_eq_nil] at hnil
    have hu : (StartJobSubscription subscribe job).1.unsubscribers = [] := by
      rw [StartJobSubscription_eq]
      simp [he]
    have herr : JobSubErr.noLogInitiator
        ∈ (StartJobSubscription subscribe job).2 := by
      rw [StartJobSubscription_eq]
      simp [he]
    constructor
    · constructor
      · intro _ i hi
        rcases List.mem_append.mp hi with h1 | h2
        · exact (successesOf_eq_nil_iff subscribe job .ethLogCb _).mp
            hnil.1 i h1
        · exact (successesOf_eq_nil_iff subscribe job .runLogCb _).mp
            hnil.2 i h2
      · intro _
        exact ⟨hu, herr⟩
    · rintro ⟨i, hi, rpc, hok⟩
      exfalso
      rcases List.mem_append.mp hi with h1 | h2
      · exact successesOf_ne_nil h1 hok hnil.1
      · exact successesOf_ne_nil h2 hok hnil.2
  · have hu : (StartJobSubscription subscribe job).1.unsubscribers
        = successesOf subscribe job .ethLogCb (job.initiatorsFor .ethLog)
          ++ successesOf subscribe job .runLogCb
            (job.initiatorsFor .runLog) := by
      rw [StartJobSubscription_eq]
      simp [he]
    have herr : (StartJobSubscription subscribe job).2
        = (failuresOf subscribe (job.initiatorsFor .ethLog)
            ++ failuresOf subscribe (job.initiatorsFor .runLog)).map
          JobSubErr.setup := by
      rw [StartJobSubscription_eq]
      simp [he]
    constructor
    · constructor
      · rintro ⟨-, h2⟩
        exfalso
        rw [herr] at h2
        exact noLogInitiator_not_mem_setup _ h2
      · intro hall
        exfalso
        apply he
        rw [List.isEmpty_iff, List.append_eq_nil]
        exact ⟨(successesOf_eq_nil_iff subscribe job .ethLogCb _).mpr
            (fun i hi => hall i (List.mem_append.mpr (Or.inl hi))),
          (successesOf_eq_nil_iff subscribe job .runLogCb _).mpr
            (fun i hi => hall i (List.mem_append.mpr (Or.inr hi)))⟩
    · intro _
      refine ⟨hu, ?_⟩
      rw [herr]
      exact noLogInitiator_not_mem_setup _

/-- Witness for claim C3 at a concrete job with one RunLog initiator and an
always-succeeding source: the handle owns the one successful subscription
and carries no failure marker. -/
theorem claim_C3_witness :
    (∃ i ∈ sampleJob.initiatorsFor .ethLog
        ++ sampleJob.initiatorsFor .runLog, ∃ rpc, okSource i = .ok rpc) ∧
    ((StartJobSubscription okSource sampleJob).1.unsubscribers
      = successesOf okSource sampleJob .ethLogCb
          (sampleJob.initiatorsFor .ethLog)
        ++ successesOf okSource sampleJob .runLogCb
          (sampleJob.initiatorsFor .runLog) ∧
    JobSubErr.noLogInitiator ∉ (StartJobSubscription okSource sampleJob).2) :=
  ⟨⟨sampleInitiator, by decide, ⟨true⟩, rfl⟩,
    (claim_C3 okSource sampleJob).2 ⟨sampleInitiator, by decide, ⟨true⟩, rfl⟩⟩
end Chainlink








